import Mathlib

/-!
# Verification of the ACS local tenancy / runtime-instance registry

A shallow embedding of the registry core of the Agent Cloud Services CLI
(`src/state/project-registry.ts`, `src/state/layout.ts`, `src/commands/run.ts`,
the `create` command module) together with proofs about its naming, scope
resolution, and record bookkeeping logic.

Conventions of the embedding:
* JavaScript strings are Lean `String`s; the character-level operations the
  registry performs (lower-casing, trimming, regex replacement, splitting)
  are modelled on `List Char` data.
* Filesystem directories holding one JSON file per record are modelled as
  lists of (file name, record) pairs; `writeJson` to an existing path
  replaces that file, otherwise it adds one.
* Effects that the registry receives from the platform (`randomUUID`,
  `new Date().toISOString()`, the WHATWG URL parser) are threaded in as
  explicit parameters / parser oracles.
* Fallible operations return `Except`; a thrown `Error` corresponds to an
  `.error` result that produces no state.
-/

/-- ASCII lower-casing of a character, as `String.prototype.toLowerCase`
acts on the ASCII range (the only range that can survive the registry's
`[a-z0-9-]` sanitization). -/
def toLowerChar (c : Char) : Char :=
  if 65 ≤ c.toNat ∧ c.toNat ≤ 90 then Char.ofNat (c.toNat + 32) else c

/-- The character class `[a-z0-9-]` of the sanitization regex in
`sanitizeName` (`project-registry.ts`). -/
def isNameChar (c : Char) : Bool :=
  decide ((97 ≤ c.toNat ∧ c.toNat ≤ 122) ∨ (48 ≤ c.toNat ∧ c.toNat ≤ 57) ∨ c.toNat = 45)

/-- The white-space set removed by `String.prototype.trim`: ASCII
whitespace, NBSP, the Unicode space separators, line/paragraph separators
and the BOM. -/
def isTrimChar (c : Char) : Bool :=
  decide ((9 ≤ c.toNat ∧ c.toNat ≤ 13) ∨ c.toNat = 32 ∨ c.toNat = 160 ∨ c.toNat = 5760 ∨
    (8192 ≤ c.toNat ∧ c.toNat ≤ 8202) ∨ c.toNat = 8232 ∨ c.toNat = 8233 ∨
    c.toNat = 8239 ∨ c.toNat = 8287 ∨ c.toNat = 12288 ∨ c.toNat = 65279)

/-- `String.prototype.trim`: drop trim characters from both ends. -/
def trimChars (cs : List Char) : List Char :=
  ((cs.dropWhile isTrimChar).reverse.dropWhile isTrimChar).reverse

/-- `value.replace(/[^a-z0-9-]+/g, "-")`: every maximal run of characters
outside `[a-z0-9-]` becomes a single `-`.  The boolean argument records
whether the previous character belonged to such a run. -/
def replaceDisallowedRuns : List Char → Bool → List Char
  | [], _ => []
  | c :: rest, prevBad =>
    if isNameChar c then c :: replaceDisallowedRuns rest false
    else if prevBad then replaceDisallowedRuns rest true
    else '-' :: replaceDisallowedRuns rest true

/-- The trailing-dash replacement `value.replace(dash-run-at-end regex, "")`:
drop trailing dashes. -/
def dropTrailingDashes (cs : List Char) : List Char :=
  (cs.reverse.dropWhile (fun c => c = '-')).reverse

/-- The full sanitization pipeline of `sanitizeName` on character data:
lower-case, trim, collapse disallowed runs to `-`, strip leading and
trailing dashes. -/
def sanitizeChars (cs : List Char) : List Char :=
  dropTrailingDashes
    (((replaceDisallowedRuns (trimChars (cs.map toLowerChar)) false)).dropWhile
      (fun c => c = '-'))

/-- `sanitizeName` from `project-registry.ts`. -/
def sanitizeName (value : String) : String :=
  ⟨sanitizeChars value.data⟩

/-- The decimal digit characters, indexing `0`–`9` (total on `Nat`, but only
applied to values `< 10`). -/
def digitChar : Nat → Char
  | 0 => '0'
  | 1 => '1'
  | 2 => '2'
  | 3 => '3'
  | 4 => '4'
  | 5 => '5'
  | 6 => '6'
  | 7 => '7'
  | 8 => '8'
  | _ => '9'

/-- Inverse table of `digitChar`, used only in proofs of injectivity of the
decimal rendering. -/
def digitVal : Char → Nat
  | '0' => 0
  | '1' => 1
  | '2' => 2
  | '3' => 3
  | '4' => 4
  | '5' => 5
  | '6' => 6
  | '7' => 7
  | '8' => 8
  | _ => 9

/-- Fuel-driven decimal rendering of a natural number, most significant
digit first (the behaviour of JavaScript template interpolation
`` `${suffix}` `` for the non-negative integers used as suffixes). -/
def natReprAux : Nat → Nat → List Char
  | 0, _ => []
  | fuel + 1, n =>
    if n < 10 then [digitChar n]
    else natReprAux fuel (n / 10) ++ [digitChar (n % 10)]

/-- Decimal rendering of a natural number (`n + 1` fuel always suffices). -/
def natReprChars (n : Nat) : List Char :=
  natReprAux (n + 1) n

/-- Reads a decimal digit list back into a number; proof-side inverse of
`natReprChars`. -/
def decodeDigits (cs : List Char) : Nat :=
  cs.foldl (fun acc c => acc * 10 + digitVal c) 0

/-- The candidate name `` `${baseName}-${suffix}` `` tried by
`findNextAutoName`. -/
def autoCandidate (baseName : String) (suffix : Nat) : String :=
  baseName ++ "-" ++ ⟨natReprChars suffix⟩

/-- The `while (existingNames.has(candidate))` loop of `findNextAutoName`,
driven by explicit fuel (the loop in the source terminates because only
finitely many names exist; `existingNames.length + 1` iterations always
suffice, see `findNextAutoNameAux_spec`). -/
def findNextAutoNameAux (baseName : String) (existingNames : List String) :
    Nat → Nat → String
  | 0, suffix => autoCandidate baseName suffix
  | fuel + 1, suffix =>
    if autoCandidate baseName suffix ∈ existingNames then
      findNextAutoNameAux baseName existingNames fuel (suffix + 1)
    else autoCandidate baseName suffix

/-- `findNextAutoName` from `project-registry.ts`: scan suffixes `1, 2, …`
until a candidate is not taken. -/
def findNextAutoName (baseName : String) (existingNames : List String) : String :=
  findNextAutoNameAux baseName existingNames (existingNames.length + 1) 1

/-- Accumulator-style splitter implementing
`str.split("/").filter(Boolean)`: the maximal non-empty runs of characters
between `/` separators. -/
def segmentsAux : List Char → List Char → List (List Char)
  | [], acc => if acc = [] then [] else [acc.reverse]
  | c :: rest, acc =>
    if c = '/' then
      if acc = [] then segmentsAux rest []
      else acc.reverse :: segmentsAux rest []
    else segmentsAux rest (c :: acc)

/-- `str.split("/").filter(Boolean)` on character data. -/
def nonEmptySegments (cs : List Char) : List (List Char) :=
  segmentsAux cs []

/-- `seg.replace(/\.git$/i, "")`: strip one trailing `.git`,
case-insensitively. -/
def stripGitSuffix (cs : List Char) : List Char :=
  if 4 ≤ cs.length ∧ (cs.drop (cs.length - 4)).map toLowerChar = ['.', 'g', 'i', 't'] then
    cs.take (cs.length - 4)
  else cs

/-- Models the platform WHATWG URL parser (`new URL(...)`) restricted to
what the registry exercises: a plain `http://` or `https://` URL with a
non-empty host parses successfully and its `pathname` is everything from
the first `/` after the host (or `/` when the path is empty); any other
string fails to parse.  Query/fragment/userinfo syntax and non-http
schemes are outside the fragment used here. -/
def urlPathname (s : String) : Option String :=
  let cs := s.data
  let afterScheme : Option (List Char) :=
    if cs.take 8 = "https://".data then some (cs.drop 8)
    else if cs.take 7 = "http://".data then some (cs.drop 7)
    else none
  match afterScheme with
  | none => none
  | some rest =>
    let host := rest.takeWhile (fun c => ¬ c = '/')
    let tail := rest.dropWhile (fun c => ¬ c = '/')
    if host = [] then none
    else some (if tail = [] then "/" else ⟨tail⟩)

/-- The fallback branch of `parseRepositoryName`: last non-empty
`/`-separated component of the raw string (or `"harness"`), with a
trailing `.git` stripped. -/
def rawFallback (sourceUrl : String) : String :=
  let fallback := ((nonEmptySegments sourceUrl.data).getLast?).getD "harness".data
  ⟨stripGitSuffix fallback⟩

/-- `parseRepositoryName` from `project-registry.ts`, parameterised by the
URL-parser oracle (`parse s = some pathname` models a successful
`new URL(s)` with that `pathname`; `none` models the thrown parse error):
on a successful parse whose pathname has at least two non-empty segments,
the second segment with `.git` stripped; otherwise the raw fallback. -/
def parseRepositoryNameWith (parse : String → Option String) (sourceUrl : String) : String :=
  match parse sourceUrl with
  | some pathname =>
    match nonEmptySegments pathname.data with
    | _ :: second :: _ => ⟨stripGitSuffix second⟩
    | _ => rawFallback sourceUrl
  | none => rawFallback sourceUrl

/-- `parseRepositoryName` instantiated with the modelled platform URL
parser. -/
def parseRepositoryName (sourceUrl : String) : String :=
  parseRepositoryNameWith urlPathname sourceUrl

/-- Follows the spec's words for the repository-name derivation, for
comparison with `parseRepositoryNameWith`: "parse as a URL, take the
second path segment, strip a trailing `.git`; if parsing fails, fall back
to the last non-empty `/`-separated path component similarly stripped" —
i.e. the fallback is used exactly when URL parsing fails, and a missing
second segment inside a successfully parsed URL yields the `"harness"`
default of the second-segment branch. -/
def parseRepositoryNameClaimed (parse : String → Option String) (sourceUrl : String) : String :=
  match parse sourceUrl with
  | some pathname =>
    match (nonEmptySegments pathname.data).get? 1 with
    | some second => ⟨stripGitSuffix second⟩
    | none => "harness"
  | none => rawFallback sourceUrl

/-! ## Data model (`src/types/state.ts`) -/

/-- The two fixed environments. -/
inductive EnvironmentName
  | development
  | production
  deriving DecidableEq, Repr

/-- Execution targets (`RuntimeTarget` in `types/config.ts`). -/
inductive RuntimeTarget
  | docker
  | swarm
  deriving DecidableEq, Repr

/-- Lifecycle status of a runtime instance. -/
inductive RuntimeInstanceStatus
  | created
  | running
  | stopped
  | error
  deriving DecidableEq, Repr

/-- Status of a run record. -/
inductive RunRecordStatus
  | queued
  | running
  | completed
  | failed
  deriving DecidableEq, Repr

/-- The source descriptor of a runtime instance; the `type` field is the
constant `"github"` in the source and is omitted. -/
structure GithubSource where
  url : String
  repository : String
  deriving DecidableEq, Repr

/-- `ProjectRecord`: timestamps are ISO strings. -/
structure ProjectRecord where
  id : String
  name : String
  environment : EnvironmentName
  createdAt : String
  updatedAt : String
  runtimeCount : Nat
  deriving DecidableEq, Repr

/-- `CurrentContextRecord`. -/
structure CurrentContextRecord where
  environment : EnvironmentName
  projectId : String
  updatedAt : String
  deriving DecidableEq, Repr

/-- `RuntimeInstanceRecord`. -/
structure RuntimeInstanceRecord where
  id : String
  name : String
  environment : EnvironmentName
  projectId : String
  target : RuntimeTarget
  source : GithubSource
  status : RuntimeInstanceStatus
  running : Bool
  createdAt : String
  updatedAt : String
  runCount : Nat
  lastRunAt : Option String
  deriving DecidableEq, Repr

/-- `RunRecord`. -/
structure RunRecord where
  id : String
  instanceId : String
  instanceName : String
  environment : EnvironmentName
  projectId : String
  target : RuntimeTarget
  sourceUrl : String
  status : RunRecordStatus
  dryRun : Bool
  startedAt : String
  endedAt : Option String
  durationMs : Option Nat
  message : Option String
  deriving DecidableEq, Repr

/-- One JSON file in the instances directory: its file name (the paths all
live in the scope's instances directory, so only the name is kept) and the
parsed record. -/
structure InstanceFile where
  path : String
  record : RuntimeInstanceRecord
  deriving DecidableEq, Repr

/-- One JSON file in the runs directory. -/
structure RunFile where
  path : String
  record : RunRecord
  deriving DecidableEq, Repr

/-- The mutable on-disk state a resolved `ProjectScope` gives access to:
the project file plus the instances and runs directories (`homePath` and
the directory paths themselves are constants once the scope is resolved
and are dropped). -/
structure ScopeState where
  environment : EnvironmentName
  projectId : String
  project : ProjectRecord
  instances : List InstanceFile
  runs : List RunFile
  deriving DecidableEq, Repr

/-! ## Instance registry (`src/state/project-registry.ts`) -/

/-- Insertion step of the by-name sort used to model
`output.sort((a, b) => a.record.name.localeCompare(b.record.name))`
(the comparator is modelled as lexicographic string order; no claim
depends on the relative order of distinct names). -/
def insertByName (f : InstanceFile) : List InstanceFile → List InstanceFile
  | [] => [f]
  | g :: rest =>
    if f.record.name ≤ g.record.name then f :: g :: rest
    else g :: insertByName f rest

/-- `listRuntimeInstances`: the instance files sorted by record name. -/
def listRuntimeInstances : List InstanceFile → List InstanceFile
  | [] => []
  | f :: rest => insertByName f (listRuntimeInstances rest)

/-- The set of taken names
(`new Set(existing.map((item) => item.record.name))`), as a list whose
membership is what the `Set` is consulted for. -/
def scopeInstanceNames (st : ScopeState) : List String :=
  (listRuntimeInstances st.instances).map fun item => item.record.name

/-- `writeJson` into the instances directory: overwrite the file at that
path if present, otherwise add it. -/
def writeInstanceFile (files : List InstanceFile) (f : InstanceFile) : List InstanceFile :=
  if files.any fun g => g.path = f.path then
    files.map fun g => if g.path = f.path then f else g
  else files ++ [f]

/-- `writeJson` into the runs directory. -/
def writeRunFile (files : List RunFile) (f : RunFile) : List RunFile :=
  if files.any fun g => g.path = f.path then
    files.map fun g => if g.path = f.path then f else g
  else files ++ [f]

/-- `CreateRuntimeInstanceInput`. -/
structure CreateRuntimeInstanceInput where
  sourceUrl : String
  name : Option String
  target : RuntimeTarget
  deriving DecidableEq, Repr

/-- The errors `createRuntimeInstance` throws before writing anything. -/
inductive CreateError
  | invalidName
  | duplicateName
  deriving DecidableEq, Repr

/-- `createRuntimeInstance`: derive and (for auto-naming) suffix the name,
fail on an empty sanitized name or an explicit duplicate, otherwise write
the new instance file named `<id>.json` and recompute the project's
`runtimeCount` (`updateProjectRuntimeCount`).  `freshId` models the
generated `rtm_<16-hex>` id and `now` the `new Date().toISOString()`
timestamp. -/
def createRuntimeInstance (st : ScopeState) (input : CreateRuntimeInstanceInput)
    (freshId now : String) : Except CreateError (ScopeState × RuntimeInstanceRecord) :=
  let existingNames := scopeInstanceNames st
  let derivedRepository := parseRepositoryName input.sourceUrl
  let baseName := match input.name with
    | some n => sanitizeName n
    | none => sanitizeName derivedRepository
  if baseName = "" then .error .invalidName
  else
    let chosen : Except CreateError String :=
      match input.name with
      | none => .ok (findNextAutoName baseName existingNames)
      | some _ =>
        if baseName ∈ existingNames then .error .duplicateName else .ok baseName
    match chosen with
    | .error e => .error e
    | .ok runtimeName =>
      let record : RuntimeInstanceRecord := {
        id := freshId
        name := runtimeName
        environment := st.environment
        projectId := st.projectId
        target := input.target
        source := { url := input.sourceUrl, repository := derivedRepository }
        status := .created
        running := false
        createdAt := now
        updatedAt := now
        runCount := 0
        lastRunAt := none }
      let newInstances := writeInstanceFile st.instances { path := freshId ++ ".json", record := record }
      let newProject : ProjectRecord := { st.project with
        runtimeCount := (listRuntimeInstances newInstances).length
        updatedAt := now }
      .ok ({ st with instances := newInstances, project := newProject }, record)

/-- The state a caller is left with after a `createRuntimeInstance` call:
the new state on success, the unchanged one when the call threw (the
throws in the source happen before any `writeJson`). -/
def applyCreate (st : ScopeState) (input : CreateRuntimeInstanceInput)
    (freshId now : String) : ScopeState :=
  match createRuntimeInstance st input freshId now with
  | .ok (st', _) => st'
  | .error _ => st

/-- `findRuntimeByName`: linear scan of the listing. -/
def findRuntimeByName (st : ScopeState) (name : String) : Option InstanceFile :=
  (listRuntimeInstances st.instances).find? fun item => item.record.name == name

/-- The record written back by the run command when `dryRun` is false
(`run.ts`, the `nextRecord` object spread). -/
def runUpdatedRecord (r : RuntimeInstanceRecord) (now : String) : RuntimeInstanceRecord :=
  { r with
    status := .running
    running := true
    runCount := r.runCount + 1
    lastRunAt := some now
    updatedAt := now }

/-- `runCommand` (`src/commands/run.ts`) as a state transition on the
resolved scope, returning the new state and the process exit code:
look up the instance by name; fail (exit 1, nothing written) when absent;
when `dryRun` is false overwrite the instance file in place with
`runUpdatedRecord` via `saveRuntimeRecord`.  No run record is written on
any path of this command. -/
def runCommand (st : ScopeState) (name : String) (dryRun : Bool) (now : String) :
    ScopeState × Nat :=
  match findRuntimeByName st name with
  | none => (st, 1)
  | some runtime =>
    if dryRun then (st, 0)
    else
      let updated : InstanceFile :=
        { path := runtime.path, record := runUpdatedRecord runtime.record now }
      ({ st with instances := writeInstanceFile st.instances updated }, 0)

/-- `CreateRunRecordInput`. -/
structure CreateRunRecordInput where
  instanceId : String
  instanceName : String
  environment : EnvironmentName
  projectId : String
  target : RuntimeTarget
  sourceUrl : String
  status : RunRecordStatus
  dryRun : Bool
  startedAt : String
  endedAt : Option String
  durationMs : Option Nat
  message : Option String
  deriving DecidableEq, Repr

/-- The record assembled by `createRunRecord` (fields copied verbatim,
fresh id). -/
def runRecordOf (input : CreateRunRecordInput) (freshId : String) : RunRecord :=
  { id := freshId
    instanceId := input.instanceId
    instanceName := input.instanceName
    environment := input.environment
    projectId := input.projectId
    target := input.target
    sourceUrl := input.sourceUrl
    status := input.status
    dryRun := input.dryRun
    startedAt := input.startedAt
    endedAt := input.endedAt
    durationMs := input.durationMs
    message := input.message }

/-- `createRunRecord`: write the new run file `<id>.json` into the runs
directory. -/
def createRunRecord (st : ScopeState) (input : CreateRunRecordInput)
    (freshId : String) : ScopeState × RunRecord :=
  let record := runRecordOf input freshId
  let file : RunFile := { path := freshId ++ ".json", record := record }
  ({ st with runs := writeRunFile st.runs file }, record)

/-- One attempted `createRuntimeInstance` call with its platform-supplied
id and timestamp. -/
structure CreateOp where
  input : CreateRuntimeInstanceInput
  freshId : String
  now : String
  deriving DecidableEq, Repr

/-- A sequence of create calls as a command-line session performs them; a
failed call leaves the state as it was.  Returns the final state and the
number of successful creations. -/
def runCreates (st : ScopeState) : List CreateOp → ScopeState × Nat
  | [] => (st, 0)
  | op :: rest =>
    match createRuntimeInstance st op.input op.freshId op.now with
    | .ok (st', _) =>
      let result := runCreates st' rest
      (result.1, result.2 + 1)
    | .error _ => runCreates st rest

/-! ## Scope resolution (`resolveProjectScope`) -/

/-- `ResolveScopeInput` (the `--env` / `--project` overrides). -/
structure ResolveScopeInput where
  environment : Option EnvironmentName
  projectId : Option String
  deriving DecidableEq, Repr

/-- The filesystem facts `resolveProjectScope` consults: whether the
manifest exists, the context file's content if it exists, and the project
records present keyed by `(environment, projectId)`. -/
structure WorldState where
  manifestExists : Bool
  context : Option CurrentContextRecord
  projects : List (EnvironmentName × String × ProjectRecord)
  deriving DecidableEq, Repr

/-- `pathExists(projectPath)` followed by `readJson`, over the world
model. -/
def lookupProject (world : WorldState) (env : EnvironmentName) (pid : String) :
    Option ProjectRecord :=
  (world.projects.find? fun e => e.1 == env && e.2.1 == pid).map fun e => e.2.2

/-- The distinct failures of `resolveProjectScope`. -/
inductive ResolveError
  | notInitialized
  | contextMissing
  | projectNotFound
  deriving DecidableEq, Repr

/-- The `ProjectScope` value `resolveProjectScope` returns (directory
paths, derivable from environment and project id alone, are dropped). -/
structure ProjectScope where
  context : CurrentContextRecord
  environment : EnvironmentName
  projectId : String
  project : ProjectRecord
  deriving DecidableEq, Repr

/-- `resolveProjectScope`: require the manifest and the context file,
apply the override-else-context rule
(`input.environment ?? context.environment`,
`input.projectId ?? context.projectId`), and load the project record at
the derived location. -/
def resolveProjectScope (world : WorldState) (input : ResolveScopeInput) :
    Except ResolveError ProjectScope :=
  if !world.manifestExists then .error .notInitialized
  else
    match world.context with
    | none => .error .contextMissing
    | some context =>
      let environment := input.environment.getD context.environment
      let projectId := input.projectId.getD context.projectId
      match lookupProject world environment projectId with
      | none => .error .projectNotFound
      | some project =>
        .ok { context := context, environment := environment,
              projectId := projectId, project := project }

/-! ## Concrete scenario data (the spec walkthrough: a fresh default
project in production, creates against the acme my-harness URL) -/

def demoProject : ProjectRecord :=
  { id := "prj_default", name := "default", environment := .production,
    createdAt := "2026-01-01T00:00:00.000Z", updatedAt := "2026-01-01T00:00:00.000Z",
    runtimeCount := 0 }

def demoScope : ScopeState :=
  { environment := .production, projectId := "prj_default", project := demoProject,
    instances := [], runs := [] }

def demoInput : CreateRuntimeInstanceInput :=
  { sourceUrl := "https://github.com/acme/my-harness", name := none, target := .docker }

/-- The record the first no-name create against the empty demo scope
produces. -/
def demoRecord1 : RuntimeInstanceRecord :=
  { id := "rtm_1", name := "my-harness-1", environment := .production,
    projectId := "prj_default", target := .docker,
    source := { url := "https://github.com/acme/my-harness", repository := "my-harness" },
    status := .created, running := false, createdAt := "T1", updatedAt := "T1",
    runCount := 0, lastRunAt := none }

/-- The demo scope after the first successful create. -/
def demoState1 : ScopeState := applyCreate demoScope demoInput "rtm_1" "T1"

def demoRunInput : CreateRunRecordInput :=
  { instanceId := "rtm_1", instanceName := "my-harness-1", environment := .production,
    projectId := "prj_default", target := .docker,
    sourceUrl := "https://github.com/acme/my-harness", status := .running,
    dryRun := false, startedAt := "T3", endedAt := none, durationMs := none,
    message := none }

/-- The state a freshly resolved scope over an empty project presents:
no instance files, no run files. -/
def mkInitState (env : EnvironmentName) (pid : String) (proj : ProjectRecord) : ScopeState :=
  { environment := env, projectId := pid, project := proj, instances := [], runs := [] }

def demoOps : List CreateOp :=
  [{ input := demoInput, freshId := "rtm_1", now := "T1" },
   { input := demoInput, freshId := "rtm_2", now := "T2" }]

def demoCtx : CurrentContextRecord :=
  { environment := .production, projectId := "prj_default", updatedAt := "T0" }

def demoWorld : WorldState :=
  { manifestExists := true, context := some demoCtx,
    projects := [(.production, "prj_default", demoProject)] }

def demoScopeResolved : ProjectScope :=
  { context := demoCtx, environment := .production, projectId := "prj_default",
    project := demoProject }

def demoFile1 : InstanceFile := { path := "rtm_1.json", record := demoRecord1 }

/-! ## Lemmas: sanitization -/

lemma toLowerChar_of_nameChar {c : Char} (h : isNameChar c = true) : toLowerChar c = c := by
  have h' := of_decide_eq_true h
  unfold toLowerChar
  rw [if_neg]
  omega

lemma not_trimChar_of_nameChar {c : Char} (h : isNameChar c = true) : isTrimChar c = false := by
  have h' := of_decide_eq_true h
  apply decide_eq_false
  omega

lemma isNameChar_dash : isNameChar '-' = true := by decide

lemma dropWhile_head_eq_self {p : Char → Bool} :
    ∀ l : List Char, (∀ c ∈ l.head?, p c = false) → l.dropWhile p = l := by
  intro l h
  cases l with
  | nil => rfl
  | cons c rest =>
    have hc : p c = false := h c rfl
    simp [List.dropWhile, hc]

lemma dropWhile_all_eq_self {p : Char → Bool} (l : List Char)
    (h : ∀ c ∈ l, p c = false) : l.dropWhile p = l := by
  apply dropWhile_head_eq_self
  intro c hc
  cases l with
  | nil => simp at hc
  | cons d rest =>
    simp only [List.head?_cons, Option.mem_def, Option.some.injEq] at hc
    exact hc ▸ h d (by simp)

lemma head?_dropWhile {p : Char → Bool} :
    ∀ l : List Char, ∀ c ∈ (l.dropWhile p).head?, p c = false := by
  intro l
  induction l with
  | nil => intro c hc; simp [List.dropWhile] at hc
  | cons d rest ih =>
    intro c hc
    by_cases hd : p d
    · rw [List.dropWhile_cons_of_pos hd] at hc
      exact ih c hc
    · rw [List.dropWhile_cons_of_neg hd] at hc
      simp only [List.head?_cons, Option.mem_def, Option.some.injEq] at hc
      subst hc
      exact Bool.eq_false_iff.mpr hd

lemma replaceDisallowedRuns_all :
    ∀ (l : List Char) (b : Bool), ∀ c ∈ replaceDisallowedRuns l b, isNameChar c = true := by
  intro l
  induction l with
  | nil => intro b c hc; simp [replaceDisallowedRuns] at hc
  | cons d rest ih =>
    intro b c hc
    by_cases hd : isNameChar d
    · rw [replaceDisallowedRuns, if_pos hd] at hc
      rcases List.mem_cons.mp hc with h | h
      · exact h ▸ hd
      · exact ih false c h
    · rw [replaceDisallowedRuns, if_neg hd] at hc
      cases b with
      | true =>
        rw [if_pos rfl] at hc
        exact ih true c hc
      | false =>
        rw [if_neg (by simp)] at hc
        rcases List.mem_cons.mp hc with h | h
        · exact h ▸ isNameChar_dash
        · exact ih true c h

lemma replaceDisallowedRuns_id (l : List Char) (h : ∀ c ∈ l, isNameChar c = true) :
    replaceDisallowedRuns l false = l := by
  induction l with
  | nil => rfl
  | cons d rest ih =>
    rw [replaceDisallowedRuns, if_pos (h d (by simp))]
    rw [ih fun c hc => h c (by simp [hc])]

lemma trimChars_id (l : List Char) (h : ∀ c ∈ l, isNameChar c = true) :
    trimChars l = l := by
  unfold trimChars
  rw [dropWhile_all_eq_self l fun c hc => not_trimChar_of_nameChar (h c hc)]
  rw [dropWhile_all_eq_self l.reverse fun c hc =>
    not_trimChar_of_nameChar (h c (List.mem_reverse.mp hc))]
  exact List.reverse_reverse l

lemma map_toLowerChar_id (l : List Char) (h : ∀ c ∈ l, isNameChar c = true) :
    l.map toLowerChar = l := by
  induction l with
  | nil => rfl
  | cons d rest ih =>
    simp only [List.map_cons]
    rw [toLowerChar_of_nameChar (h d (by simp)), ih fun c hc => h c (by simp [hc])]

lemma dropTrailingDashes_decomp (l : List Char) :
    l = dropTrailingDashes l ++ (l.reverse.takeWhile (fun c => c = '-')).reverse := by
  symm
  rw [dropTrailingDashes, ← List.reverse_append, List.takeWhile_append_dropWhile,
    List.reverse_reverse]

lemma mem_dropTrailingDashes {c : Char} {l : List Char}
    (h : c ∈ dropTrailingDashes l) : c ∈ l := by
  unfold dropTrailingDashes at h
  rw [List.mem_reverse] at h
  exact List.mem_reverse.mp ((List.dropWhile_sublist _).subset h)

lemma getLast?_dropTrailingDashes (l : List Char) :
    ∀ c ∈ (dropTrailingDashes l).getLast?, c ≠ '-' := by
  intro c hc
  unfold dropTrailingDashes at hc
  rw [List.getLast?_reverse] at hc
  have := head?_dropWhile (p := fun c => decide (c = '-')) l.reverse c hc
  exact of_decide_eq_false this

lemma head?_dropTrailingDashes (l : List Char) :
    ∀ c ∈ (dropTrailingDashes l).head?, c ∈ l.head? := by
  intro c hc
  have hdecomp := dropTrailingDashes_decomp l
  cases hdd : dropTrailingDashes l with
  | nil => rw [hdd] at hc; simp at hc
  | cons d rest =>
    rw [hdd] at hc hdecomp
    simp only [List.head?_cons, Option.mem_def, Option.some.injEq] at hc
    rw [hdecomp, List.cons_append, List.head?_cons]
    simp [hc]

lemma dropTrailingDashes_id (l : List Char) (h : ∀ c ∈ l.getLast?, c ≠ '-') :
    dropTrailingDashes l = l := by
  unfold dropTrailingDashes
  rw [dropWhile_head_eq_self l.reverse, List.reverse_reverse]
  intro c hc
  rw [List.head?_reverse] at hc
  exact decide_eq_false (h c hc)

lemma sanitizeChars_all (cs : List Char) : ∀ c ∈ sanitizeChars cs, isNameChar c = true := by
  intro c hc
  unfold sanitizeChars at hc
  have h1 := mem_dropTrailingDashes hc
  have h2 := (List.dropWhile_sublist _).subset h1
  exact replaceDisallowedRuns_all _ _ _ h2

lemma sanitizeChars_head (cs : List Char) : ∀ c ∈ (sanitizeChars cs).head?, c ≠ '-' := by
  intro c hc
  unfold sanitizeChars at hc
  have h1 := head?_dropTrailingDashes _ c hc
  have h2 := head?_dropWhile (p := fun c => decide (c = '-')) _ c h1
  exact of_decide_eq_false h2

lemma sanitizeChars_getLast (cs : List Char) :
    ∀ c ∈ (sanitizeChars cs).getLast?, c ≠ '-' := by
  intro c hc
  exact getLast?_dropTrailingDashes _ c hc

lemma sanitizeChars_idem (cs : List Char) :
    sanitizeChars (sanitizeChars cs) = sanitizeChars cs := by
  have hall := sanitizeChars_all cs
  conv_lhs => rw [sanitizeChars]
  rw [map_toLowerChar_id _ hall, trimChars_id _ hall, replaceDisallowedRuns_id _ hall]
  rw [dropWhile_head_eq_self _ fun c hc => decide_eq_false (sanitizeChars_head cs c hc)]
  exact dropTrailingDashes_id _ (sanitizeChars_getLast cs)

/-! ## Lemmas: decimal suffixes and the auto-name search -/

lemma digitVal_digitChar {d : Nat} (h : d < 10) : digitVal (digitChar d) = d := by
  interval_cases d <;> rfl

lemma decodeDigits_append (l : List Char) (c : Char) :
    decodeDigits (l ++ [c]) = decodeDigits l * 10 + digitVal c := by
  unfold decodeDigits
  rw [List.foldl_append]
  rfl

lemma decodeDigits_natReprAux : ∀ fuel n, n < fuel →
    decodeDigits (natReprAux fuel n) = n := by
  intro fuel
  induction fuel with
  | zero => intro n h; omega
  | succ fuel ih =>
    intro n h
    rw [natReprAux]
    by_cases hn : n < 10
    · rw [if_pos hn]
      show decodeDigits ([] ++ [digitChar n]) = n
      rw [decodeDigits_append]
      simp [decodeDigits, digitVal_digitChar hn]
    · rw [if_neg hn]
      have hdiv : n / 10 < n := Nat.div_lt_self (by omega) (by omega)
      rw [decodeDigits_append, ih (n / 10) (by omega),
        digitVal_digitChar (Nat.mod_lt n (by omega))]
      omega

lemma natReprChars_injective : Function.Injective natReprChars := by
  intro a b hab
  have ha := decodeDigits_natReprAux (a + 1) a (by omega)
  have hb := decodeDigits_natReprAux (b + 1) b (by omega)
  unfold natReprChars at hab
  rw [hab] at ha
  rw [hb] at ha
  exact ha.symm

lemma autoCandidate_injective (base : String) : Function.Injective (autoCandidate base) := by
  intro a b hab
  unfold autoCandidate at hab
  have hdata := congrArg String.data hab
  rw [String.data_append, String.data_append, String.data_append, String.data_append] at hdata
  have := List.append_cancel_left hdata
  exact natReprChars_injective this

lemma autoCandidate_exists_free (base : String) (names : List String) (s : Nat) :
    ∃ n, s ≤ n ∧ n ≤ s + names.length ∧ autoCandidate base n ∉ names := by
  by_contra hcon
  push_neg at hcon
  have hsub : (Finset.Icc s (s + names.length)).image (autoCandidate base) ⊆
      names.toFinset := by
    intro x hx
    rw [Finset.mem_image] at hx
    obtain ⟨n, hn, hnx⟩ := hx
    rw [Finset.mem_Icc] at hn
    rw [List.mem_toFinset, ← hnx]
    exact hcon n hn.1 hn.2
  have hcard := Finset.card_le_card hsub
  rw [Finset.card_image_of_injOn ((autoCandidate_injective base).injOn)] at hcard
  rw [Nat.card_Icc] at hcard
  have := names.toFinset_card_le
  omega

lemma findNextAutoNameAux_spec (base : String) (names : List String) :
    ∀ fuel s, (∃ n, s ≤ n ∧ n ≤ s + fuel ∧ autoCandidate base n ∉ names) →
      ∃ n, s ≤ n ∧ findNextAutoNameAux base names fuel s = autoCandidate base n ∧
        autoCandidate base n ∉ names ∧
        ∀ m, s ≤ m → m < n → autoCandidate base m ∈ names := by
  intro fuel
  induction fuel with
  | zero =>
    intro s ⟨n, hsn, hns, hfree⟩
    have : n = s := by omega
    subst this
    exact ⟨n, le_refl n, rfl, hfree, fun m h1 h2 => absurd (h1.trans_lt h2) (lt_irrefl n)⟩
  | succ fuel ih =>
    intro s hex
    rw [findNextAutoNameAux]
    by_cases hc : autoCandidate base s ∈ names
    · rw [if_pos hc]
      have hex' : ∃ n, s + 1 ≤ n ∧ n ≤ s + 1 + fuel ∧ autoCandidate base n ∉ names := by
        obtain ⟨n, h1, h2, h3⟩ := hex
        refine ⟨n, ?_, by omega, h3⟩
        rcases Nat.eq_or_lt_of_le h1 with heq | hlt
        · exact absurd (heq ▸ hc) h3
        · omega
      obtain ⟨n, h1, h2, h3, h4⟩ := ih (s + 1) hex'
      refine ⟨n, by omega, h2, h3, fun m hm1 hm2 => ?_⟩
      rcases Nat.eq_or_lt_of_le hm1 with heq | hlt
      · exact heq ▸ hc
      · exact h4 m hlt hm2
    · rw [if_neg hc]
      exact ⟨s, le_refl s, rfl, hc, fun m h1 h2 => absurd (h1.trans_lt h2) (lt_irrefl s)⟩

lemma findNextAutoName_spec (base : String) (names : List String) :
    ∃ n, 1 ≤ n ∧ findNextAutoName base names = autoCandidate base n ∧
      autoCandidate base n ∉ names ∧
      ∀ m, 1 ≤ m → m < n → autoCandidate base m ∈ names := by
  obtain ⟨n, h1, h2, h3⟩ := autoCandidate_exists_free base names 1
  exact findNextAutoNameAux_spec base names (names.length + 1) 1 ⟨n, h1, by omega, h3⟩

/-! ## Lemmas: the instances directory and `createRuntimeInstance` -/

lemma length_insertByName (f : InstanceFile) :
    ∀ l : List InstanceFile, (insertByName f l).length = l.length + 1 := by
  intro l
  induction l with
  | nil => rfl
  | cons g rest ih =>
    rw [insertByName]
    by_cases h : f.record.name ≤ g.record.name
    · rw [if_pos h]; rfl
    · rw [if_neg h]
      simp only [List.length_cons, ih]

lemma length_listRuntimeInstances :
    ∀ l : List InstanceFile, (listRuntimeInstances l).length = l.length := by
  intro l
  induction l with
  | nil => rfl
  | cons f rest ih =>
    rw [listRuntimeInstances, length_insertByName, ih]
    rfl

lemma mem_insertByName {a f : InstanceFile} :
    ∀ {l : List InstanceFile}, a ∈ insertByName f l ↔ a = f ∨ a ∈ l := by
  intro l
  induction l with
  | nil => simp [insertByName]
  | cons g rest ih =>
    rw [insertByName]
    by_cases h : f.record.name ≤ g.record.name
    · rw [if_pos h]
      simp [List.mem_cons]
    · rw [if_neg h]
      simp only [List.mem_cons, ih]
      tauto

lemma mem_listRuntimeInstances {a : InstanceFile} :
    ∀ {l : List InstanceFile}, a ∈ listRuntimeInstances l ↔ a ∈ l := by
  intro l
  induction l with
  | nil => simp [listRuntimeInstances]
  | cons f rest ih =>
    rw [listRuntimeInstances, mem_insertByName]
    simp only [List.mem_cons, ih]

lemma mem_scopeInstanceNames {st : ScopeState} {n : String} :
    n ∈ scopeInstanceNames st ↔ ∃ f ∈ st.instances, f.record.name = n := by
  unfold scopeInstanceNames
  simp only [List.mem_map]
  constructor
  · rintro ⟨f, hf, rfl⟩
    exact ⟨f, mem_listRuntimeInstances.mp hf, rfl⟩
  · rintro ⟨f, hf, rfl⟩
    exact ⟨f, mem_listRuntimeInstances.mpr hf, rfl⟩

lemma writeInstanceFile_of_fresh {files : List InstanceFile} {f : InstanceFile}
    (h : f.path ∉ files.map InstanceFile.path) :
    writeInstanceFile files f = files ++ [f] := by
  unfold writeInstanceFile
  rw [if_neg]
  simp only [List.any_eq_true, not_exists, not_and]
  intro g hg hgp
  exact h (List.mem_map.mpr ⟨g, hg, by simpa using hgp⟩)

lemma writeRunFile_of_fresh {files : List RunFile} {f : RunFile}
    (h : f.path ∉ files.map RunFile.path) :
    writeRunFile files f = files ++ [f] := by
  unfold writeRunFile
  rw [if_neg]
  simp only [List.any_eq_true, not_exists, not_and]
  intro g hg hgp
  exact h (List.mem_map.mpr ⟨g, hg, by simpa using hgp⟩)

/-- What a successful `createRuntimeInstance` call did to the state: it
wrote exactly one instance file (named after the fresh id, holding the
returned record) and recomputed the project's `runtimeCount` as the new
directory size; the runs directory, scope identity and project identity
fields are untouched. -/
lemma createRuntimeInstance_ok_state {st : ScopeState} {input : CreateRuntimeInstanceInput}
    {freshId now : String} {st' : ScopeState} {rec : RuntimeInstanceRecord}
    (h : createRuntimeInstance st input freshId now = .ok (st', rec)) :
    st'.instances = writeInstanceFile st.instances { path := freshId ++ ".json", record := rec } ∧
    st'.project.runtimeCount = st'.instances.length ∧
    st'.runs = st.runs ∧ rec.id = freshId := by
  unfold createRuntimeInstance at h
  by_cases hbase : (match input.name with
    | some n => sanitizeName n
    | none => sanitizeName (parseRepositoryName input.sourceUrl)) = ""
  · rw [if_pos hbase] at h
    exact absurd h (by simp)
  · rw [if_neg hbase] at h
    rcases hname : input.name with _ | n
    · rw [hname] at h
      simp only [Except.ok.injEq, Prod.mk.injEq] at h
      obtain ⟨hst, hrec⟩ := h
      subst hst
      subst hrec
      refine ⟨rfl, ?_, rfl, rfl⟩
      simp only
      rw [length_listRuntimeInstances]
    · rw [hname] at h
      by_cases hdup : (match input.name with
        | some n => sanitizeName n
        | none => sanitizeName (parseRepositoryName input.sourceUrl)) ∈ scopeInstanceNames st
      · rw [hname] at hdup
        rw [if_pos hdup] at h
        exact absurd h (by simp)
      · rw [hname] at hdup
        rw [if_neg hdup] at h
        simp only [Except.ok.injEq, Prod.mk.injEq] at h
        obtain ⟨hst, hrec⟩ := h
        subst hst
        subst hrec
        refine ⟨rfl, ?_, rfl, rfl⟩
        simp only
        rw [length_listRuntimeInstances]

lemma runCreates_invariant :
    ∀ (ops : List CreateOp) (st : ScopeState),
      st.project.runtimeCount = st.instances.length →
      (∀ op ∈ ops, (op.freshId ++ ".json") ∉ st.instances.map InstanceFile.path) →
      (ops.map fun op => op.freshId ++ ".json").Nodup →
      ((runCreates st ops).1).project.runtimeCount = ((runCreates st ops).1).instances.length ∧
      ((runCreates st ops).1).instances.length = st.instances.length + (runCreates st ops).2 := by
  intro ops
  induction ops with
  | nil =>
    intro st hcnt _ _
    exact ⟨hcnt, rfl⟩
  | cons op rest ih =>
    intro st hcnt hfresh hnd
    rcases hcr : createRuntimeInstance st op.input op.freshId op.now with e | pair
    · have hred : runCreates st (op :: rest) = runCreates st rest := by
        rw [runCreates, hcr]
      rw [hred]
      exact ih st hcnt (fun o ho => hfresh o (List.mem_cons_of_mem op ho))
        (List.Nodup.of_cons hnd)
    · obtain ⟨st', rec⟩ := pair
      obtain ⟨hinst, hrc, hruns, hid⟩ := createRuntimeInstance_ok_state hcr
      have hop : (op.freshId ++ ".json") ∉ st.instances.map InstanceFile.path :=
        hfresh op (List.mem_cons_self op rest)
      have hwrote : st'.instances = st.instances ++ [⟨op.freshId ++ ".json", rec⟩] := by
        rw [hinst, writeInstanceFile_of_fresh hop]
      have hpaths : st'.instances.map InstanceFile.path =
          st.instances.map InstanceFile.path ++ [op.freshId ++ ".json"] := by
        rw [hwrote, List.map_append]
        rfl
      have hred : (runCreates st (op :: rest)).1 = (runCreates st' rest).1 ∧
          (runCreates st (op :: rest)).2 = (runCreates st' rest).2 + 1 := by
        rw [runCreates, hcr]
        exact ⟨rfl, rfl⟩
      have hfresh' : ∀ o ∈ rest, (o.freshId ++ ".json") ∉ st'.instances.map InstanceFile.path := by
        intro o ho hmem
        rw [hpaths, List.mem_append] at hmem
        rcases hmem with hmem | hmem
        · exact hfresh o (List.mem_cons_of_mem op ho) hmem
        · simp only [List.mem_singleton] at hmem
          have hop_notin := (List.nodup_cons.mp hnd).1
          apply hop_notin
          show op.freshId ++ ".json" ∈ List.map (fun op => op.freshId ++ ".json") rest
          rw [← hmem]
          exact List.mem_map.mpr ⟨o, ho, rfl⟩
      obtain ⟨ih1, ih2⟩ := ih st' hrc hfresh' (List.Nodup.of_cons hnd)
      refine ⟨hred.1 ▸ ih1, ?_⟩
      rw [hred.1, hred.2, ih2, hwrote]
      simp only [List.length_append, List.length_cons, List.length_nil]
      omega

/-! ## Claim theorems -/

/-- Claim C9: name sanitization is idempotent — sanitizing an already
sanitized string changes nothing, since every output of `sanitizeName` is
lower-case `[a-z0-9-]` text without leading or trailing dashes. -/
theorem claim9_theorem (s : String) : sanitizeName (sanitizeName s) = sanitizeName s := by
  unfold sanitizeName
  show (⟨sanitizeChars (sanitizeChars s.data)⟩ : String) = ⟨sanitizeChars s.data⟩
  rw [sanitizeChars_idem]

/-- Claim C10: the auto-suffix search is total and correct — for every
base name and every finite list of taken names, `findNextAutoName`
returns a name not in the list (the candidates are pairwise distinct, so
`existingNames.length + 1` probes always reach a free one; the Lean
function is total by construction and this theorem shows the fuel bound
is never exhausted before a free candidate is found). -/
theorem claim10_theorem (baseName : String) (existingNames : List String) :
    findNextAutoName baseName existingNames ∉ existingNames := by
  obtain ⟨n, _, heq, hfree, _⟩ := findNextAutoName_spec baseName existingNames
  rw [heq]
  exact hfree

lemma createRuntimeInstance_auto_name {st : ScopeState} {input : CreateRuntimeInstanceInput}
    {freshId now : String} {st' : ScopeState} {rec : RuntimeInstanceRecord}
    (hname : input.name = none)
    (hok : createRuntimeInstance st input freshId now = .ok (st', rec)) :
    rec.name = findNextAutoName (sanitizeName (parseRepositoryName input.sourceUrl))
      (scopeInstanceNames st) := by
  unfold createRuntimeInstance at hok
  rw [hname] at hok
  by_cases hbase : sanitizeName (parseRepositoryName input.sourceUrl) = ""
  · rw [if_pos hbase] at hok
    exact absurd hok (by simp)
  · rw [if_neg hbase] at hok
    simp only [Except.ok.injEq, Prod.mk.injEq] at hok
    obtain ⟨_, hrec⟩ := hok
    rw [← hrec]

/-- Claim C3: a create without an explicit name chooses
`<base>-<n>` for the smallest positive `n` whose candidate is not among
the names already present in the scope, scanning from `n = 1` (the base
being the sanitized repository name derived from the source URL). -/
theorem claim3_theorem (st : ScopeState) (input : CreateRuntimeInstanceInput)
    (freshId now : String) (st' : ScopeState) (rec : RuntimeInstanceRecord)
    (hname : input.name = none)
    (hok : createRuntimeInstance st input freshId now = .ok (st', rec)) :
    ∃ n, 1 ≤ n ∧
      rec.name = autoCandidate (sanitizeName (parseRepositoryName input.sourceUrl)) n ∧
      rec.name ∉ scopeInstanceNames st ∧
      ∀ m, 1 ≤ m → m < n →
        autoCandidate (sanitizeName (parseRepositoryName input.sourceUrl)) m ∈
          scopeInstanceNames st := by
  have hn := createRuntimeInstance_auto_name hname hok
  obtain ⟨n, h1, heq, hfree, hmin⟩ :=
    findNextAutoName_spec (sanitizeName (parseRepositoryName input.sourceUrl))
      (scopeInstanceNames st)
  exact ⟨n, h1, by rw [hn, heq], by rw [hn, heq]; exact hfree, hmin⟩

/-- Witness for C3: the first no-name create in the demo scenario picks
`my-harness-1`, the minimal free candidate over an empty scope. -/
theorem claim3_witness :
    ∃ n, 1 ≤ n ∧
      demoRecord1.name = autoCandidate (sanitizeName (parseRepositoryName demoInput.sourceUrl)) n ∧
      demoRecord1.name ∉ scopeInstanceNames demoScope ∧
      ∀ m, 1 ≤ m → m < n →
        autoCandidate (sanitizeName (parseRepositoryName demoInput.sourceUrl)) m ∈
          scopeInstanceNames demoScope :=
  claim3_theorem demoScope demoInput "rtm_1" "T1" demoState1 demoRecord1 rfl rfl

/-- Claim C4: creating with an explicit name whose sanitized form is
already taken in the scope fails with the duplicate-name error (no
auto-suffixing), and the failed call leaves the scope's files unchanged;
the scope is assumed well-formed in that no present instance has an empty
name (registry-created instances never do). -/
theorem claim4_theorem (st : ScopeState) (input : CreateRuntimeInstanceInput)
    (freshId now n : String)
    (hname : input.name = some n)
    (hmem : sanitizeName n ∈ scopeInstanceNames st)
    (hwf : "" ∉ scopeInstanceNames st) :
    createRuntimeInstance st input freshId now = .error .duplicateName ∧
    applyCreate st input freshId now = st := by
  have hnz : ¬ sanitizeName n = "" := fun h => hwf (h ▸ hmem)
  have hcre : createRuntimeInstance st input freshId now = .error .duplicateName := by
    unfold createRuntimeInstance
    rw [hname]
    rw [if_neg hnz, if_pos hmem]
  refine ⟨hcre, ?_⟩
  unfold applyCreate
  rw [hcre]

/-- Witness for C4: against the demo scope holding `my-harness-1`, an
explicit name sanitizing to `my-harness-1` is rejected and the state is
unchanged. -/
theorem claim4_witness :
    createRuntimeInstance demoState1
      { sourceUrl := "https://github.com/acme/other", name := some "My Harness 1",
        target := .docker } "rtm_3" "T3" = .error .duplicateName ∧
    applyCreate demoState1
      { sourceUrl := "https://github.com/acme/other", name := some "My Harness 1",
        target := .docker } "rtm_3" "T3" = demoState1 :=
  claim4_theorem demoState1
    { sourceUrl := "https://github.com/acme/other", name := some "My Harness 1",
      target := .docker } "rtm_3" "T3" "My Harness 1" rfl (by decide) (by decide)

/-- Counterexample for C1: the first no-name create in a fresh scope does
NOT produce an instance named `my-harness` — `findNextAutoName` starts at
suffix 1 even when no name is taken. -/
theorem claim1_counterexample :
    (createRuntimeInstance demoScope demoInput "rtm_1" "T1").toOption.map
      (fun r => r.2.name) ≠ some "my-harness" := by
  decide

/-- Claim C1 (amended): in a fresh scope, a create with
`https://github.com/acme/my-harness` and no explicit name yields an
instance named `my-harness-1` with `source.repository = "my-harness"`; a
second identical create then yields `my-harness-2`. -/
theorem claim1_theorem :
    (createRuntimeInstance demoScope demoInput "rtm_1" "T1").toOption.map
      (fun r => (r.2.name, r.2.source.repository)) = some ("my-harness-1", "my-harness") ∧
    (createRuntimeInstance demoState1 demoInput "rtm_2" "T2").toOption.map
      (fun r => r.2.name) = some "my-harness-2" := by
  decide

/-- Counterexample for C2: a non-dry run against the demo instance leaves
the runs directory empty — the run command does not create a Run
record. -/
theorem claim2_counterexample :
    ¬ (((runCommand demoState1 "my-harness-1" false "T3").1).runs.length =
        demoState1.runs.length + 1) := by
  decide

/-- Claim C2 (amended): the run command itself never writes a Run record
(execution is a placeholder and `createRunRecord` has no caller on that
path); the `createRunRecord` registry operation, when invoked with a
fresh id, creates exactly one new Run record and leaves all existing run
files unchanged. -/
theorem claim2_theorem :
    (∀ (st : ScopeState) (name : String) (dryRun : Bool) (now : String),
      ((runCommand st name dryRun now).1).runs = st.runs) ∧
    (∀ (st : ScopeState) (input : CreateRunRecordInput) (freshId : String),
      (freshId ++ ".json") ∉ st.runs.map RunFile.path →
      ((createRunRecord st input freshId).1).runs =
        st.runs ++ [{ path := freshId ++ ".json", record := runRecordOf input freshId }]) := by
  constructor
  · intro st name dryRun now
    unfold runCommand
    rcases hfind : findRuntimeByName st name with _ | rt
    · rfl
    · cases dryRun <;> rfl
  · intro st input freshId h
    unfold createRunRecord
    simp only
    rw [writeRunFile_of_fresh h]

/-- Witness for C2 (amended): concrete run and createRunRecord calls in
the demo scope. -/
theorem claim2_witness :
    ((runCommand demoState1 "my-harness-1" false "T3").1).runs = demoState1.runs ∧
    ((createRunRecord demoState1 demoRunInput "run_1").1).runs =
      demoState1.runs ++ [{ path := "run_1.json", record := runRecordOf demoRunInput "run_1" }] :=
  ⟨claim2_theorem.1 demoState1 "my-harness-1" false "T3",
   claim2_theorem.2 demoState1 demoRunInput "run_1" (by decide)⟩

/-- Claim C5: starting from an empty project whose record carries
`runtimeCount = 0`, after any prefix of a sequence of create calls (with
fresh, pairwise-distinct generated ids) the persisted `runtimeCount`
equals the number of instance files present, and that number equals the
number of successful creations so far — independent of order and of
interleaved failed creations. -/
theorem claim5_theorem (env : EnvironmentName) (pid : String) (proj : ProjectRecord)
    (hcnt : proj.runtimeCount = 0) (ops : List CreateOp)
    (hnd : (ops.map fun op => op.freshId ++ ".json").Nodup) (i : Nat) :
    ((runCreates (mkInitState env pid proj) (ops.take i)).1).project.runtimeCount =
      ((runCreates (mkInitState env pid proj) (ops.take i)).1).instances.length ∧
    ((runCreates (mkInitState env pid proj) (ops.take i)).1).instances.length =
      (runCreates (mkInitState env pid proj) (ops.take i)).2 := by
  have hnd' : ((ops.take i).map fun op => op.freshId ++ ".json").Nodup := by
    rw [List.map_take]
    exact hnd.sublist (List.take_sublist i _)
  obtain ⟨h1, h2⟩ := runCreates_invariant (ops.take i) (mkInitState env pid proj)
    (by simpa [mkInitState] using hcnt)
    (by intro op _ hmem; simp [mkInitState] at hmem) hnd'
  refine ⟨h1, ?_⟩
  rw [h2]
  simp [mkInitState]

/-- Witness for C5: two creations in the demo scenario leave
`runtimeCount = 2 =` number of instance files `=` number of successes. -/
theorem claim5_witness :
    ((runCreates (mkInitState .production "prj_default" demoProject) (demoOps.take 2)).1).project.runtimeCount =
      ((runCreates (mkInitState .production "prj_default" demoProject) (demoOps.take 2)).1).instances.length ∧
    ((runCreates (mkInitState .production "prj_default" demoProject) (demoOps.take 2)).1).instances.length =
      (runCreates (mkInitState .production "prj_default" demoProject) (demoOps.take 2)).2 :=
  claim5_theorem .production "prj_default" demoProject rfl demoOps (by decide) 2

/-- Claim C6: scope resolution takes the override when one is supplied and
the persisted context's value otherwise, independently for the
environment and the project components. -/
theorem claim6_theorem (world : WorldState) (input : ResolveScopeInput)
    (scope : ProjectScope) (ctx : CurrentContextRecord)
    (hctx : world.context = some ctx)
    (hok : resolveProjectScope world input = .ok scope) :
    (input.environment = none → scope.environment = ctx.environment) ∧
    (∀ e, input.environment = some e → scope.environment = e) ∧
    (input.projectId = none → scope.projectId = ctx.projectId) ∧
    (∀ p, input.projectId = some p → scope.projectId = p) := by
  unfold resolveProjectScope at hok
  rw [hctx] at hok
  by_cases hman : world.manifestExists
  · rw [hman] at hok
    simp only [Bool.not_true] at hok
    rw [if_neg (by simp)] at hok
    rcases hlp : lookupProject world (input.environment.getD ctx.environment)
        (input.projectId.getD ctx.projectId) with _ | proj
    · rw [hlp] at hok
      exact absurd hok (by simp)
    · rw [hlp] at hok
      simp only [Except.ok.injEq] at hok
      subst hok
      refine ⟨fun h => ?_, fun e h => ?_, fun h => ?_, fun p h => ?_⟩ <;> simp [h]
  · rw [Bool.not_eq_true] at hman
    rw [hman] at hok
    simp at hok

/-- Witness for C6: resolving against the demo world without overrides
reproduces exactly the persisted context. -/
theorem claim6_witness :
    demoScopeResolved.environment = demoCtx.environment ∧
    demoScopeResolved.projectId = demoCtx.projectId :=
  ⟨(claim6_theorem demoWorld { environment := none, projectId := none }
      demoScopeResolved demoCtx rfl rfl).1 rfl,
   (claim6_theorem demoWorld { environment := none, projectId := none }
      demoScopeResolved demoCtx rfl rfl).2.2.1 rfl⟩

/-- Counterexample for C7: `new URL("https://example.com/foo")` succeeds
(modelled `urlPathname` returns `some "/foo"`), yet the code takes the
raw-string fallback because the pathname has fewer than two non-empty
segments — so the fallback is not used "exactly when URL parsing fails",
and the code's result differs from the spec-worded derivation. -/
theorem claim7_counterexample :
    urlPathname "https://example.com/foo" = some "/foo" ∧
    parseRepositoryNameWith urlPathname "https://example.com/foo" =
      rawFallback "https://example.com/foo" ∧
    parseRepositoryNameClaimed urlPathname "https://example.com/foo" = "harness" ∧
    parseRepositoryNameWith urlPathname "https://example.com/foo" ≠
      parseRepositoryNameClaimed urlPathname "https://example.com/foo" := by
  decide

lemma parseRepositoryNameWith_some {parse : String → Option String} {s p : String}
    (hp : parse s = some p) :
    parseRepositoryNameWith parse s =
      match nonEmptySegments p.data with
      | _ :: second :: _ => ({ data := stripGitSuffix second } : String)
      | _ => rawFallback s := by
  unfold parseRepositoryNameWith
  rw [hp]

/-- Claim C7 (amended): for every URL-parser oracle and every source
string, the derived repository name is the second non-empty path segment
(with trailing `.git` stripped) when parsing succeeds and the pathname
has at least two non-empty segments; the raw-string fallback is used
exactly when parsing fails or the parsed pathname has fewer than two
non-empty segments. -/
theorem claim7_theorem (parse : String → Option String) (s : String) :
    (parse s = none → parseRepositoryNameWith parse s = rawFallback s) ∧
    (∀ p first seg rest, parse s = some p →
      nonEmptySegments p.data = first :: seg :: rest →
      parseRepositoryNameWith parse s = ⟨stripGitSuffix seg⟩) ∧
    (∀ p, parse s = some p → (nonEmptySegments p.data).length < 2 →
      parseRepositoryNameWith parse s = rawFallback s) := by
  refine ⟨fun h => ?_, fun p first seg rest hp hseg => ?_, fun p hp hlen => ?_⟩
  · unfold parseRepositoryNameWith
    rw [h]
  · rw [parseRepositoryNameWith_some hp, hseg]
  · rw [parseRepositoryNameWith_some hp]
    rcases hseg : nonEmptySegments p.data with _ | ⟨a, _ | ⟨b, rest⟩⟩
    · rfl
    · rfl
    · rw [hseg] at hlen
      simp only [List.length_cons] at hlen
      omega

/-- Witness for C7 (amended): the demo URL with a `.git` suffix resolves
through the successful-parse branch to the stripped second segment. -/
theorem claim7_witness :
    parseRepositoryNameWith urlPathname "https://github.com/acme/my-harness.git" =
      ⟨stripGitSuffix "my-harness.git".data⟩ :=
  (claim7_theorem urlPathname "https://github.com/acme/my-harness.git").2.1
    "/acme/my-harness.git" "acme".data "my-harness.git".data [] rfl (by decide)

/-- Claim C8: a non-dry run against an existing instance rewrites exactly
that instance file with a record that differs from the prior one only in
`status` (now `running`), `running` (now `true`), `runCount` (incremented
by 1), `lastRunAt` and `updatedAt` (the supplied timestamp); the identity
fields `id`, `name`, `environment`, `projectId`, `target`, `source` and
`createdAt` are unchanged, and the runs directory is untouched. -/
theorem claim8_theorem (st : ScopeState) (name now : String) (rt : InstanceFile)
    (hfind : findRuntimeByName st name = some rt) :
    ((runCommand st name false now).1).instances =
      writeInstanceFile st.instances { path := rt.path, record := runUpdatedRecord rt.record now } ∧
    ((runCommand st name false now).1).runs = st.runs ∧
    (runUpdatedRecord rt.record now).id = rt.record.id ∧
    (runUpdatedRecord rt.record now).name = rt.record.name ∧
    (runUpdatedRecord rt.record now).environment = rt.record.environment ∧
    (runUpdatedRecord rt.record now).projectId = rt.record.projectId ∧
    (runUpdatedRecord rt.record now).target = rt.record.target ∧
    (runUpdatedRecord rt.record now).source = rt.record.source ∧
    (runUpdatedRecord rt.record now).createdAt = rt.record.createdAt ∧
    (runUpdatedRecord rt.record now).status = .running ∧
    (runUpdatedRecord rt.record now).running = true ∧
    (runUpdatedRecord rt.record now).runCount = rt.record.runCount + 1 ∧
    (runUpdatedRecord rt.record now).lastRunAt = some now ∧
    (runUpdatedRecord rt.record now).updatedAt = now := by
  refine ⟨?_, ?_, rfl, rfl, rfl, rfl, rfl, rfl, rfl, rfl, rfl, rfl, rfl, rfl⟩
  · unfold runCommand
    rw [hfind]
    rfl
  · unfold runCommand
    rw [hfind]
    rfl

/-- Witness for C8: the demo run against `my-harness-1`. -/
theorem claim8_witness :
    ((runCommand demoState1 "my-harness-1" false "T3").1).instances =
      writeInstanceFile demoState1.instances
        { path := demoFile1.path, record := runUpdatedRecord demoFile1.record "T3" } ∧
    ((runCommand demoState1 "my-harness-1" false "T3").1).runs = demoState1.runs ∧
    (runUpdatedRecord demoFile1.record "T3").id = demoFile1.record.id ∧
    (runUpdatedRecord demoFile1.record "T3").name = demoFile1.record.name ∧
    (runUpdatedRecord demoFile1.record "T3").environment = demoFile1.record.environment ∧
    (runUpdatedRecord demoFile1.record "T3").projectId = demoFile1.record.projectId ∧
    (runUpdatedRecord demoFile1.record "T3").target = demoFile1.record.target ∧
    (runUpdatedRecord demoFile1.record "T3").source = demoFile1.record.source ∧
    (runUpdatedRecord demoFile1.record "T3").createdAt = demoFile1.record.createdAt ∧
    (runUpdatedRecord demoFile1.record "T3").status = .running ∧
    (runUpdatedRecord demoFile1.record "T3").running = true ∧
    (runUpdatedRecord demoFile1.record "T3").runCount = demoFile1.record.runCount + 1 ∧
    (runUpdatedRecord demoFile1.record "T3").lastRunAt = some "T3" ∧
    (runUpdatedRecord demoFile1.record "T3").updatedAt = "T3" :=
  claim8_theorem demoState1 "my-harness-1" "T3" demoFile1 rfl
